import Mathlib

/-!
Shallow embedding of the commit-tree reconstruction engine of
src/devtools/views/Profiler/CommitTreeBuilder.js.

The embedding is in two layers:

* a value-level model (JsNode, updateTree, getCommitTree) in which a
  JavaScript Map is an association list of key/value pairs and every
  object is represented by its value;
* a heap-level model (JsHeap, updateTreeH) in which every Node object has
  an explicit address into a heap list, so that mutation of objects and
  the copy-on-write discipline become observable and frame properties can
  be stated.

JavaScript semantics are modelled faithfully, in particular:

* Uint32Array reads out of bounds yield undefined; an undefined index or
  Map key is modelled as the value none of Option Nat;
* Object.assign of an absent Map entry yields an empty object, modelled
  by a JsNode record whose fields are all none;
* reading .children of an empty object and calling .filter or .concat on
  the resulting undefined raises a TypeError;
* arithmetic with undefined yields NaN, which makes every subsequent
  loop bound comparison false (modelled by ending the decode loop).
-/

/-- Modelled from the spec: opcode tag of the Add operation
(TREE_OPERATION_ADD in src/constants, which is outside src/). -/
def TREE_OPERATION_ADD : Nat := 1

/-- Modelled from the spec: opcode tag of the Remove operation. -/
def TREE_OPERATION_REMOVE : Nat := 2

/-- Modelled from the spec: opcode tag of the ReorderChildren operation. -/
def TREE_OPERATION_REORDER_CHILDREN : Nat := 3

/-- Modelled from the spec: opcode tag of the UpdateTreeBaseDuration
operation. -/
def TREE_OPERATION_UPDATE_TREE_BASE_DURATION : Nat := 4

/-- Modelled from the spec: nodeType tag marking a root node
(ElementTypeRoot in src/devtools/types, which is outside src/).
Only its distinctness from other tags matters to the claims. -/
def ElementTypeRoot : Nat := 11

/-- Modelled from the spec: utfDecodeString (src/utils, outside src/)
turns a run of buffer words into a string, one code unit per word. -/
def utfDecodeString (words : List Nat) : String :=
  String.mk (words.map Char.ofNat)

/-- JavaScript object for a commit-tree node.  Every field is optional:
a field is none when it is absent (as on the empty object produced by
cloning a missing Map entry) or holds the JavaScript value undefined or
null.  treeBaseDuration is a rational number of milliseconds; the value
none also stands for NaN, which the source never reads back. -/
structure JsNode where
  id : Option Nat
  parentID : Option Nat
  displayName : Option String
  key : Option String
  children : Option (List (Option Nat))
  treeBaseDuration : Option Rat
deriving DecidableEq

/-- Empty JavaScript object, the result of Object.assign of a missing
Map entry. -/
def JsNode.empty : JsNode :=
  { id := none, parentID := none, displayName := none, key := none,
    children := none, treeBaseDuration := none }

/-- Association list modelling a JavaScript Map whose keys are numbers or
undefined (none). -/
abbrev JsMap := List (Option Nat × JsNode)

/-- Map.get: first matching entry. -/
def alistLookup {α β : Type} [DecidableEq α] : List (α × β) → α → Option β
  | [], _ => none
  | (k, v) :: rest, k0 => if k = k0 then some v else alistLookup rest k0

/-- Map.set: replace the entry in place when the key is present,
append otherwise. -/
def alistSet {α β : Type} [DecidableEq α] : List (α × β) → α → β → List (α × β)
  | [], k0, v0 => [(k0, v0)]
  | (k, v) :: rest, k0, v0 =>
    if k = k0 then (k0, v0) :: rest else (k, v) :: alistSet rest k0 v0

/-- Map.delete: drop the entry with the given key. -/
def alistDelete {α β : Type} [DecidableEq α] : List (α × β) → α → List (α × β)
  | [], _ => []
  | (k, v) :: rest, k0 =>
    if k = k0 then rest else (k, v) :: alistDelete rest k0

/-- Map.has. -/
def alistHas {α β : Type} [DecidableEq α] (m : List (α × β)) (k : α) : Bool :=
  (alistLookup m k).isSome

/-- CommitTree snapshot: the id-to-Node mapping plus the root id
(value-level model). -/
structure CommitTree where
  nodes : JsMap
  rootID : Nat
deriving DecidableEq

/-- Errors thrown by the engine.  duplicateNode and unknownNode are the
two Error throws of updateTree; unsupportedOperation is the default
switch branch; typeError models calling .filter or .concat on the
undefined .children of an empty object; unreconstructableCommit is the
throw of getCommitTree; stackOverflow models exhaustion of the call
stack by the recursive initial-tree builder on a cyclic hierarchy. -/
inductive JsError where
  | duplicateNode (id : Option Nat)
  | unknownNode (id : Option Nat)
  | unsupportedOperation (op : Nat)
  | typeError
  | unreconstructableCommit (rootID commitIndex : Nat)
  | stackOverflow
deriving DecidableEq

/-- Resolution of a string-table reference: stringTable[ref].  Index 0
holds null; an out-of-range or undefined index yields undefined.  Both
null and undefined are none. -/
def tableLookup (table : List (Option String)) : Option Nat → Option String
  | none => none
  | some r => (table.get? r).getD none

/-- Clone of the getClonedNode helper of updateTree: Object.assign a
shallow copy of the entry (the empty object when the entry is absent),
store the copy back in the mapping and hand it out. -/
def getClonedNode (nodes : JsMap) (id : Option Nat) : JsMap × JsNode :=
  let clonedNode := (alistLookup nodes id).getD JsNode.empty
  (alistSet nodes id clonedNode, clonedNode)

/-- String-table decode loop of updateTree: from position i up to the
recorded boundary tEnd, read a length word and the corresponding run of
data words (Uint32Array.slice clamps at the end of the buffer).  The
result none models the case of a length read out of bounds: the cursor
becomes NaN, both loops of updateTree exit, and the whole call returns
the unchanged clone of the previous snapshot. -/
def decodeTableLoop (ops : List Nat) (i tEnd : Nat) (table : List (Option String)) :
    Option (List (Option String) × Nat) :=
  if i < tEnd then
    match ops.get? i with
    | none => none
    | some nextLength =>
      let nextString := utfDecodeString ((ops.drop (i + 1)).take nextLength)
      decodeTableLoop ops (i + 1 + nextLength) tEnd (table ++ [some nextString])
  else
    some (table, i)
termination_by tEnd - i
decreasing_by omega

/-- Body of the for loop of the TREE_OPERATION_REMOVE case: count ids are
read in order from position p.  An id absent from the mapping (as of the
prior removals) throws; an id read out of bounds is undefined and is
absent, so it throws unknownNode none.  Deleting a node whose parent is
absent clones the parent into an empty object, whose undefined .children
then raises a TypeError when .filter is called on it. -/
def removeLoop (ops : List Nat) (p : Nat) (count : Nat) (nodes : JsMap) :
    Except JsError JsMap :=
  match count with
  | 0 => Except.ok nodes
  | c + 1 =>
    let id := ops.get? p
    if alistHas nodes id then
      let step := getClonedNode nodes id
      let node := step.2
      let parentID := node.parentID
      let nodes2 := alistDelete step.1 id
      let step2 := getClonedNode nodes2 parentID
      let parentNode := step2.2
      match parentNode.children with
      | none => Except.error JsError.typeError
      | some cs =>
        let parentNode2 := { parentNode with children := some (cs.filter (fun c => c ≠ id)) }
        removeLoop ops (p + 1) c (alistSet step2.1 parentID parentNode2)
    else
      Except.error (JsError.unknownNode id)

/-- Operation loop of updateTree (value level).  p is the absolute word
position in the buffer; reads past the end of the buffer yield none and
are propagated exactly as JavaScript propagates undefined (NaN cursors
end the loop with success, undefined Map keys are the key none). -/
def opLoop (ops : List Nat) (table : List (Option String)) (p : Nat) (nodes : JsMap) :
    Except JsError JsMap :=
  if h : p < ops.length then
    let operation := ops[p]
    if operation = TREE_OPERATION_ADD then
      let id := ops.get? (p + 1)
      let type := ops.get? (p + 2)
      if alistHas nodes id then
        Except.error (JsError.duplicateNode id)
      else if type = some ElementTypeRoot then
        let node : JsNode :=
          { id := id, parentID := some 0, displayName := none, key := none,
            children := some [], treeBaseDuration := some 0 }
        opLoop ops table (p + 5) (alistSet nodes id node)
      else
        let parentID := ops.get? (p + 3)
        let displayName := tableLookup table (ops.get? (p + 5))
        let key := tableLookup table (ops.get? (p + 6))
        let step := getClonedNode nodes parentID
        let parentNode := step.2
        match parentNode.children with
        | none => Except.error JsError.typeError
        | some cs =>
          let parentNode2 := { parentNode with children := some (cs ++ [id]) }
          let node : JsNode :=
            { id := id, parentID := parentID, displayName := displayName, key := key,
              children := some [], treeBaseDuration := some 0 }
          opLoop ops table (p + 7) (alistSet (alistSet step.1 parentID parentNode2) id node)
    else if operation = TREE_OPERATION_REMOVE then
      match ops.get? (p + 1) with
      | none => opLoop ops table (p + 2) nodes
      | some removeLength =>
        match removeLoop ops (p + 2) removeLength nodes with
        | Except.error e => Except.error e
        | Except.ok nodes2 => opLoop ops table (p + 2 + removeLength) nodes2
    else if operation = TREE_OPERATION_REORDER_CHILDREN then
      let id := ops.get? (p + 1)
      match ops.get? (p + 2) with
      | none =>
        let step := getClonedNode nodes id
        let node2 := { step.2 with children := some [] }
        Except.ok (alistSet step.1 id node2)
      | some numChildren =>
        let children := ((ops.drop (p + 3)).take numChildren).map some
        let step := getClonedNode nodes id
        let node2 := { step.2 with children := some children }
        opLoop ops table (p + 3 + numChildren) (alistSet step.1 id node2)
    else if operation = TREE_OPERATION_UPDATE_TREE_BASE_DURATION then
      let id := ops.get? (p + 1)
      let step := getClonedNode nodes id
      let node2 := { step.2 with
        treeBaseDuration := (ops.get? (p + 2)).map (fun d => (d : Rat) / 1000) }
      opLoop ops table (p + 3) (alistSet step.1 id node2)
    else
      Except.error (JsError.unsupportedOperation operation)
  else
    Except.ok nodes
termination_by ops.length - p
decreasing_by all_goals omega

/-- Value-level model of updateTree: copy the previous mapping, decode
the string table starting at word 2, then run the operation loop from
wherever the table decode stopped.  A missing word-2 size field or an
out-of-bounds length read makes the cursor NaN, which in the source ends
both loops and returns the unchanged copy. -/
def updateTree (commitTree : CommitTree) (operations : List Nat) :
    Except JsError CommitTree :=
  let nodes := commitTree.nodes
  match operations.get? 2 with
  | none => Except.ok { nodes := nodes, rootID := commitTree.rootID }
  | some stringTableSize =>
    match decodeTableLoop operations 3 (3 + stringTableSize) [none] with
    | none => Except.ok { nodes := nodes, rootID := commitTree.rootID }
    | some (table, pos) =>
      match opLoop operations table pos nodes with
      | Except.error e => Except.error e
      | Except.ok nodes2 => Except.ok { nodes := nodes2, rootID := commitTree.rootID }

/-- Entry of the externally supplied full-hierarchy description
(profilingSnapshot): the children list, display name and key copied
verbatim by the initial-tree builder. -/
structure SnapNode where
  children : List Nat
  displayName : Option String
  key : Option String
deriving DecidableEq

/-- Profiling data as read from the store: per-root operation buffers and
the full-hierarchy description. -/
structure ProfilingData where
  profilingOperations : List (Nat × List (List Nat))
  profilingSnapshot : List (Nat × SnapNode)
deriving DecidableEq

/-- Relevant part of the external Store: imported profiling data takes
precedence over the live data when present. -/
structure Store where
  importedProfilingData : Option ProfilingData
  profilingOperations : List (Nat × List (List Nat))
  profilingSnapshot : List (Nat × SnapNode)
deriving DecidableEq

/-- Operation buffers effectively in use:
importedProfilingData.profilingOperations when imported data is present,
store.profilingOperations otherwise. -/
def storeOperations (store : Store) : List (Nat × List (List Nat)) :=
  match store.importedProfilingData with
  | some d => d.profilingOperations
  | none => store.profilingOperations

/-- Hierarchy description effectively in use (same selection rule). -/
def storeSnapshot (store : Store) : List (Nat × SnapNode) :=
  match store.importedProfilingData with
  | some d => d.profilingSnapshot
  | none => store.profilingSnapshot

/-- Relevant part of the ProfilingSummary argument of getCommitTree. -/
structure ProfilingSummary where
  rootID : Nat
  initialTreeBaseDurations : List (Nat × Rat)
deriving DecidableEq

/-- Model of recursivelyIniitliazeTree, processing a worklist of sibling
ids under a common parent: an id absent from the hierarchy source is
skipped; a present id is materialized (copying children, displayName and
key verbatim, and the duration from the duration table, undefined when
missing) and its children are visited depth-first, pre-order, before the
remaining siblings.  The fuel argument bounds the recursion depth; the
result none models exhaustion of the JavaScript call stack, which can
only happen on a cyclic hierarchy source. -/
def recInitList (fuel : Nat) (snapshot : List (Nat × SnapNode))
    (durations : List (Nat × Rat)) (parentID : Nat) (ids : List Nat)
    (nodes : JsMap) : Option JsMap :=
  match fuel, ids with
  | _, [] => some nodes
  | 0, _ :: _ => none
  | f + 1, id :: rest =>
    match alistLookup snapshot id with
    | none => recInitList (f + 1) snapshot durations parentID rest nodes
    | some snapNode =>
      let node : JsNode :=
        { id := some id, parentID := some parentID,
          displayName := snapNode.displayName, key := snapNode.key,
          children := some (snapNode.children.map some),
          treeBaseDuration := alistLookup durations id }
      let nodes1 := alistSet nodes (some id) node
      match recInitList f snapshot durations id snapNode.children nodes1 with
      | none => none
      | some nodes2 => recInitList (f + 1) snapshot durations parentID rest nodes2
termination_by (fuel, ids.length)

/-- Depth budget that is sufficient for every acyclic hierarchy source:
a recursion path deeper than the number of entries must repeat an id. -/
def initialFuel (store : Store) : Nat :=
  (storeSnapshot store).length + 1

/-- Module-level rootToCommitTreeMap, threaded explicitly: per root id,
the append-only list of already computed snapshots. -/
abbrev CacheState := List (Nat × List CommitTree)

/-- Shared tail of both branches of getCommitTree: look up the operation
buffers of the root, and when one exists for this commit index, apply it
to the given previous tree, push the result onto the cached list and
return it; otherwise throw the unable-to-reconstruct error.  On an
updateTree error the cache is left as it is and the error propagates. -/
def applyAndCache (commitIndex rootID : Nat) (store : Store)
    (prev : CommitTree) (cache : CacheState) :
    CacheState × Except JsError CommitTree :=
  let commitTrees := (alistLookup cache rootID).getD []
  match alistLookup (storeOperations store) rootID with
  | none => (cache, Except.error (JsError.unreconstructableCommit rootID commitIndex))
  | some commitOperations =>
    match commitOperations.get? commitIndex with
    | none => (cache, Except.error (JsError.unreconstructableCommit rootID commitIndex))
    | some operations =>
      match updateTree prev operations with
      | Except.error e => (cache, Except.error e)
      | Except.ok commitTree =>
        (alistSet cache rootID (commitTrees ++ [commitTree]), Except.ok commitTree)

/-- Model of getCommitTree.  The global cache is threaded in and out; the
returned cache reflects every push performed before a success or an
error.  A cached index is returned as is; index 0 builds the initial
tree from the hierarchy source and duration table and then requires and
applies the operation buffer of commit 0; a larger index recursively
obtains the previous snapshot and applies its own buffer to it, with
errors of the recursive call propagated unchanged. -/
def getCommitTree (commitIndex : Nat) (profilingSummary : ProfilingSummary)
    (store : Store) (cache0 : CacheState) :
    CacheState × Except JsError CommitTree :=
  let rootID := profilingSummary.rootID
  let cache := if alistHas cache0 rootID then cache0 else alistSet cache0 rootID []
  let commitTrees := (alistLookup cache rootID).getD []
  match commitTrees.get? commitIndex with
  | some cached => (cache, Except.ok cached)
  | none =>
    match commitIndex with
    | 0 =>
      match recInitList (initialFuel store) (storeSnapshot store)
          profilingSummary.initialTreeBaseDurations 0 [rootID] [] with
      | none => (cache, Except.error JsError.stackOverflow)
      | some nodes =>
        applyAndCache 0 rootID store { nodes := nodes, rootID := rootID } cache
    | k + 1 =>
      match getCommitTree k profilingSummary store cache with
      | (cache1, Except.error e) => (cache1, Except.error e)
      | (cache1, Except.ok previousCommitTree) =>
        applyAndCache (k + 1) rootID store previousCommitTree cache1

/-- Model of invalidateCommitTrees: the module-level cache is cleared. -/
def invalidateCommitTrees (_cache : CacheState) : CacheState := []

/-- Heap of Node objects: an object reference is an index into this
list, so JavaScript in-place mutation of an object becomes List.set at
its address, and claims about objects never being mutated become frame
properties over the heap. -/
abbrev JsHeap := List JsNode

/-- Mapping from node id (or the undefined key) to the heap address of
its Node object. -/
abbrev HMap := List (Option Nat × Nat)

/-- CommitTree in the heap model: the id-to-address mapping plus the
root id. -/
structure CommitTreeH where
  nodes : HMap
  rootID : Nat
deriving DecidableEq

/-- Dereference of a mapping entry: the object stored at the address of
the entry, or the empty object when the entry (or address) is absent. -/
def heapRead (heap : JsHeap) (nodes : HMap) (id : Option Nat) : JsNode :=
  ((alistLookup nodes id).bind (fun a => heap.get? a)).getD JsNode.empty

/-- Heap-model getClonedNode: allocate a fresh object holding a shallow
copy of the entry (the empty object when absent), store its address in
the mapping, and return the new heap, the new mapping and the address of
the clone. -/
def getClonedNodeH (heap : JsHeap) (nodes : HMap) (id : Option Nat) :
    JsHeap × HMap × Nat :=
  (heap ++ [heapRead heap nodes id], alistSet nodes id heap.length, heap.length)

/-- Heap-model body of the Remove for loop; mirrors removeLoop with the
clone of the removed node and of its parent allocated on the heap and
the mutation of the parent performed in place at its address. -/
def removeLoopH (ops : List Nat) (p : Nat) (count : Nat) (heap : JsHeap)
    (nodes : HMap) : JsHeap × Except JsError HMap :=
  match count with
  | 0 => (heap, Except.ok nodes)
  | c + 1 =>
    let id := ops.get? p
    if alistHas nodes id then
      let step := getClonedNodeH heap nodes id
      let node := (step.1.get? step.2.2).getD JsNode.empty
      let nodes2 := alistDelete step.2.1 id
      let step2 := getClonedNodeH step.1 nodes2 node.parentID
      let parentNode := (step2.1.get? step2.2.2).getD JsNode.empty
      match parentNode.children with
      | none => (step2.1, Except.error JsError.typeError)
      | some cs =>
        let heap3 := step2.1.set step2.2.2
          { parentNode with children := some (cs.filter (fun c => c ≠ id)) }
        removeLoopH ops (p + 1) c heap3 step2.2.1
    else (heap, Except.error (JsError.unknownNode id))

/-- Heap-model operation loop of updateTree; mirrors opLoop, with every
object mutation performed in place at the address of a freshly
allocated clone, and every newly added node allocated fresh. -/
def opLoopH (ops : List Nat) (table : List (Option String)) (p : Nat)
    (heap : JsHeap) (nodes : HMap) : JsHeap × Except JsError HMap :=
  if h : p < ops.length then
    let operation := ops[p]
    if operation = TREE_OPERATION_ADD then
      let id := ops.get? (p + 1)
      let type := ops.get? (p + 2)
      if alistHas nodes id then
        (heap, Except.error (JsError.duplicateNode id))
      else if type = some ElementTypeRoot then
        let node : JsNode :=
          { id := id, parentID := some 0, displayName := none, key := none,
            children := some [], treeBaseDuration := some 0 }
        opLoopH ops table (p + 5) (heap ++ [node]) (alistSet nodes id heap.length)
      else
        let parentID := ops.get? (p + 3)
        let displayName := tableLookup table (ops.get? (p + 5))
        let key := tableLookup table (ops.get? (p + 6))
        let step := getClonedNodeH heap nodes parentID
        let parentNode := (step.1.get? step.2.2).getD JsNode.empty
        match parentNode.children with
        | none => (step.1, Except.error JsError.typeError)
        | some cs =>
          let heap2 := step.1.set step.2.2 { parentNode with children := some (cs ++ [id]) }
          let node : JsNode :=
            { id := id, parentID := parentID, displayName := displayName, key := key,
              children := some [], treeBaseDuration := some 0 }
          opLoopH ops table (p + 7) (heap2 ++ [node])
            (alistSet step.2.1 id heap2.length)
    else if operation = TREE_OPERATION_REMOVE then
      match ops.get? (p + 1) with
      | none => opLoopH ops table (p + 2) heap nodes
      | some removeLength =>
        match removeLoopH ops (p + 2) removeLength heap nodes with
        | (heap1, Except.error e) => (heap1, Except.error e)
        | (heap1, Except.ok nodes2) => opLoopH ops table (p + 2 + removeLength) heap1 nodes2
    else if operation = TREE_OPERATION_REORDER_CHILDREN then
      let id := ops.get? (p + 1)
      match ops.get? (p + 2) with
      | none =>
        let step := getClonedNodeH heap nodes id
        let node := (step.1.get? step.2.2).getD JsNode.empty
        (step.1.set step.2.2 { node with children := some [] }, Except.ok step.2.1)
      | some numChildren =>
        let children := ((ops.drop (p + 3)).take numChildren).map some
        let step := getClonedNodeH heap nodes id
        let node := (step.1.get? step.2.2).getD JsNode.empty
        opLoopH ops table (p + 3 + numChildren)
          (step.1.set step.2.2 { node with children := some children }) step.2.1
    else if operation = TREE_OPERATION_UPDATE_TREE_BASE_DURATION then
      let id := ops.get? (p + 1)
      let step := getClonedNodeH heap nodes id
      let node := (step.1.get? step.2.2).getD JsNode.empty
      opLoopH ops table (p + 3)
        (step.1.set step.2.2 { node with
          treeBaseDuration := (ops.get? (p + 2)).map (fun d => (d : Rat) / 1000) })
        step.2.1
    else
      (heap, Except.error (JsError.unsupportedOperation operation))
  else
    (heap, Except.ok nodes)
termination_by ops.length - p
decreasing_by all_goals omega

/-- Heap-level model of updateTree: identical control flow to the value
model, with the heap threaded through so that the locations of every
write are visible.  The previous snapshot keeps its own mapping; the new
mapping starts as a copy of it. -/
def updateTreeH (heap : JsHeap) (commitTree : CommitTreeH) (operations : List Nat) :
    JsHeap × Except JsError CommitTreeH :=
  let nodes := commitTree.nodes
  match operations.get? 2 with
  | none => (heap, Except.ok { nodes := nodes, rootID := commitTree.rootID })
  | some stringTableSize =>
    match decodeTableLoop operations 3 (3 + stringTableSize) [none] with
    | none => (heap, Except.ok { nodes := nodes, rootID := commitTree.rootID })
    | some (table, pos) =>
      match opLoopH operations table pos heap nodes with
      | (heap1, Except.error e) => (heap1, Except.error e)
      | (heap1, Except.ok nodes2) =>
        (heap1, Except.ok { nodes := nodes2, rootID := commitTree.rootID })

/-- Alignment of the string-table region: from position i the region up
to the recorded boundary tEnd decomposes exactly into length-prefixed
entries. -/
inductive TableAligned (ops : List Nat) : Nat → Nat → Prop where
  | done (tEnd : Nat) : TableAligned ops tEnd tEnd
  | step (i tEnd L : Nat) : i < tEnd → ops.get? i = some L →
      TableAligned ops (i + 1 + L) tEnd → TableAligned ops i tEnd

section AlistLemmas

variable {α β : Type} [DecidableEq α]

theorem alistLookup_set_self (m : List (α × β)) (k : α) (v : β) :
    alistLookup (alistSet m k v) k = some v := by
  induction m with
  | nil => simp [alistSet, alistLookup]
  | cons hd tl ih =>
    obtain ⟨k0, v0⟩ := hd
    by_cases h : k0 = k
    · simp [alistSet, h, alistLookup]
    · simp [alistSet, h, alistLookup, ih]

theorem alistLookup_set_ne (m : List (α × β)) (k k2 : α) (v : β) (h : k2 ≠ k) :
    alistLookup (alistSet m k v) k2 = alistLookup m k2 := by
  have hne : ¬ k = k2 := fun hh => h hh.symm
  induction m with
  | nil => simp [alistSet, alistLookup, hne]
  | cons hd tl ih =>
    obtain ⟨k0, v0⟩ := hd
    by_cases h0 : k0 = k
    · subst h0
      simp [alistSet, alistLookup, hne]
    · by_cases h2 : k0 = k2
      · simp [alistSet, h0, alistLookup, h2, h]
      · simp [alistSet, h0, alistLookup, h2, ih]

theorem alistSet_set_same (m : List (α × β)) (k : α) (v w : β) :
    alistSet (alistSet m k v) k w = alistSet m k w := by
  induction m with
  | nil => simp [alistSet]
  | cons hd tl ih =>
    obtain ⟨k0, v0⟩ := hd
    by_cases h : k0 = k
    · simp [alistSet, h]
    · simp [alistSet, h, ih]

theorem alistSet_of_lookup_eq (m : List (α × β)) (k : α) (v : β)
    (h : alistLookup m k = some v) : alistSet m k v = m := by
  induction m with
  | nil => simp [alistLookup] at h
  | cons hd tl ih =>
    obtain ⟨k0, v0⟩ := hd
    by_cases h0 : k0 = k
    · subst h0
      simp [alistLookup] at h
      simp [alistSet, h]
    · simp [alistLookup, h0] at h
      simp [alistSet, h0, ih h]

theorem alistHas_eq_true_iff (m : List (α × β)) (k : α) :
    alistHas m k = true ↔ ∃ v, alistLookup m k = some v := by
  unfold alistHas
  cases h : alistLookup m k <;> simp [Option.isSome, h]

end AlistLemmas

/-- Extension order on heaps: every address valid in the smaller heap
holds the same object in the larger one. -/
def HeapExt (h0 h1 : JsHeap) : Prop :=
  h0.length ≤ h1.length ∧ ∀ a, a < h0.length → h1.get? a = h0.get? a

theorem HeapExt.refl (h : JsHeap) : HeapExt h h :=
  ⟨Nat.le_refl _, fun _ _ => rfl⟩

theorem HeapExt.trans {h0 h1 h2 : JsHeap} (e1 : HeapExt h0 h1) (e2 : HeapExt h1 h2) :
    HeapExt h0 h2 :=
  ⟨Nat.le_trans e1.1 e2.1, fun a ha => (e2.2 a (Nat.lt_of_lt_of_le ha e1.1)).trans (e1.2 a ha)⟩

theorem HeapExt.append (h : JsHeap) (l : JsHeap) : HeapExt h (h ++ l) := by
  constructor
  · simp
  · intro a ha
    exact List.get?_append ha

theorem HeapExt.set_ge {h0 h1 : JsHeap} (e : HeapExt h0 h1) (n : Nat)
    (hn : h0.length ≤ n) (v : JsNode) : HeapExt h0 (h1.set n v) := by
  constructor
  · simpa using e.1
  · intro a ha
    rw [List.get?_set_ne _ _ (by omega)]
    exact e.2 a ha

/-- Every address of the incoming heap is left untouched by the Remove
loop: clones are allocated at fresh addresses and the only in-place
write targets the freshly allocated parent clone. -/
theorem removeLoopH_heapExt (ops : List Nat) (count : Nat) :
    ∀ p heap nodes, HeapExt heap (removeLoopH ops p count heap nodes).1 := by
  induction count with
  | zero =>
    intro p heap nodes
    exact HeapExt.refl heap
  | succ c ih =>
    intro p heap nodes
    rw [removeLoopH]
    simp only [getClonedNodeH]
    split
    · split
      · exact HeapExt.trans (HeapExt.append _ _) (HeapExt.append _ _)
      · exact HeapExt.trans
          ((HeapExt.trans (HeapExt.append _ _) (HeapExt.append _ _)).set_ge _ (by simp) _)
          (ih _ _ _)
    · exact HeapExt.refl heap

/-- Every address of the incoming heap is left untouched by the
operation loop: the copy-on-write discipline only ever writes to
freshly allocated clone addresses. -/
theorem opLoopH_heapExt (ops : List Nat) (table : List (Option String)) (p : Nat)
    (heap : JsHeap) (nodes : HMap) : HeapExt heap (opLoopH ops table p heap nodes).1 := by
  induction p, heap, nodes using opLoopH.induct ops table with
  | case1 p heap nodes h op hop id hdup =>
    have hA : ops[p] = TREE_OPERATION_ADD := hop
    have hD : alistHas nodes (ops.get? (p + 1)) = true := hdup
    rw [opLoopH, dif_pos h]
    simp only [hA, hD, reduceIte, if_true]
    exact HeapExt.refl heap
  | case2 p heap nodes h op hop id type hdup htype node ih =>
    have hA : ops[p] = TREE_OPERATION_ADD := hop
    have hD : ¬ alistHas nodes (ops.get? (p + 1)) = true := hdup
    have hT : ops.get? (p + 2) = some ElementTypeRoot := htype
    rw [opLoopH, dif_pos h]
    simp only [hA, hD, hT, reduceIte, if_true, if_false]
    exact HeapExt.trans (HeapExt.append _ _) ih
  | case3 p heap nodes h op hop id type hdup htype parentID step parentNode hch =>
    have hA : ops[p] = TREE_OPERATION_ADD := hop
    have hD : ¬ alistHas nodes (ops.get? (p + 1)) = true := hdup
    have hT : ¬ ops.get? (p + 2) = some ElementTypeRoot := htype
    have hC : ((List.get? (getClonedNodeH heap nodes (ops.get? (p + 3))).1
        (getClonedNodeH heap nodes (ops.get? (p + 3))).2.2).getD JsNode.empty).children
        = none := hch
    rw [opLoopH, dif_pos h]
    simp only [hA, hD, hT, hC, reduceIte, if_true, if_false]
    exact HeapExt.append _ _
  | case4 p heap nodes h op hop id type hdup htype parentID displayName key step
      parentNode cs hcs heap2 node ih =>
    have hA : ops[p] = TREE_OPERATION_ADD := hop
    have hD : ¬ alistHas nodes (ops.get? (p + 1)) = true := hdup
    have hT : ¬ ops.get? (p + 2) = some ElementTypeRoot := htype
    have hC : ((List.get? (getClonedNodeH heap nodes (ops.get? (p + 3))).1
        (getClonedNodeH heap nodes (ops.get? (p + 3))).2.2).getD JsNode.empty).children
        = some cs := hcs
    rw [opLoopH, dif_pos h]
    simp only [hA, hD, hT, hC, reduceIte, if_true, if_false]
    refine HeapExt.trans ?_ ih
    refine HeapExt.trans ?_ (HeapExt.append _ _)
    refine HeapExt.set_ge (HeapExt.append _ _) _ ?_ _
    exact Nat.le_refl _
  | case5 p heap nodes h op hop1 hop2 hnone ih =>
    have hA : ¬ ops[p] = TREE_OPERATION_ADD := hop1
    have hR : ops[p] = TREE_OPERATION_REMOVE := hop2
    rw [opLoopH, dif_pos h]
    simp only [hA, hR, hnone, reduceIte, if_true, if_false]
    exact ih
  | case6 p heap nodes h op hop1 hop2 r hr heap1 e hrem =>
    have hA : ¬ ops[p] = TREE_OPERATION_ADD := hop1
    have hR : ops[p] = TREE_OPERATION_REMOVE := hop2
    rw [opLoopH, dif_pos h]
    simp only [hA, hR, hr, hrem, reduceIte, if_true, if_false]
    have := removeLoopH_heapExt ops r (p + 2) heap nodes
    rw [hrem] at this
    exact this
  | case7 p heap nodes h op hop1 hop2 r hr heap1 nodes2 hrem ih =>
    have hA : ¬ ops[p] = TREE_OPERATION_ADD := hop1
    have hR : ops[p] = TREE_OPERATION_REMOVE := hop2
    rw [opLoopH, dif_pos h]
    simp only [hA, hR, hr, hrem, reduceIte, if_true, if_false]
    have hfr := removeLoopH_heapExt ops r (p + 2) heap nodes
    rw [hrem] at hfr
    exact HeapExt.trans hfr ih
  | case8 p heap nodes h op hop1 hop2 hop3 hnone =>
    have hA : ¬ ops[p] = TREE_OPERATION_ADD := hop1
    have hR : ¬ ops[p] = TREE_OPERATION_REMOVE := hop2
    have hO : ops[p] = TREE_OPERATION_REORDER_CHILDREN := hop3
    rw [opLoopH, dif_pos h]
    simp only [hA, hR, hO, hnone, reduceIte, if_true, if_false]
    refine HeapExt.set_ge (HeapExt.append _ _) _ ?_ _
    exact Nat.le_refl _
  | case9 p heap nodes h op hop1 hop2 hop3 id r hr children step node ih =>
    have hA : ¬ ops[p] = TREE_OPERATION_ADD := hop1
    have hR : ¬ ops[p] = TREE_OPERATION_REMOVE := hop2
    have hO : ops[p] = TREE_OPERATION_REORDER_CHILDREN := hop3
    rw [opLoopH, dif_pos h]
    simp only [hA, hR, hO, hr, reduceIte, if_true, if_false]
    refine HeapExt.trans ?_ ih
    refine HeapExt.set_ge (HeapExt.append _ _) _ ?_ _
    exact Nat.le_refl _
  | case10 p heap nodes h op hop1 hop2 hop3 hop4 id step node ih =>
    have hA : ¬ ops[p] = TREE_OPERATION_ADD := hop1
    have hR : ¬ ops[p] = TREE_OPERATION_REMOVE := hop2
    have hO : ¬ ops[p] = TREE_OPERATION_REORDER_CHILDREN := hop3
    have hU : ops[p] = TREE_OPERATION_UPDATE_TREE_BASE_DURATION := hop4
    rw [opLoopH, dif_pos h]
    simp only [hA, hR, hO, hU, reduceIte, if_true, if_false]
    refine HeapExt.trans ?_ ih
    refine HeapExt.set_ge (HeapExt.append _ _) _ ?_ _
    exact Nat.le_refl _
  | case11 p heap nodes h op hop1 hop2 hop3 hop4 =>
    have hA : ¬ ops[p] = TREE_OPERATION_ADD := hop1
    have hR : ¬ ops[p] = TREE_OPERATION_REMOVE := hop2
    have hO : ¬ ops[p] = TREE_OPERATION_REORDER_CHILDREN := hop3
    have hU : ¬ ops[p] = TREE_OPERATION_UPDATE_TREE_BASE_DURATION := hop4
    rw [opLoopH, dif_pos h]
    simp only [hA, hR, hO, hU, reduceIte, if_true, if_false]
    exact HeapExt.refl heap
  | case12 p heap nodes hnp =>
    rw [opLoopH, dif_neg hnp]
    exact HeapExt.refl heap

/-- Splitting the Remove loop: processing j + r ids is processing j ids
and, on success, the remaining r ids from the advanced position. -/
theorem removeLoop_split (ops : List Nat) (j r : Nat) :
    ∀ p nodes, removeLoop ops p (j + r) nodes =
      match removeLoop ops p j nodes with
      | Except.ok ns => removeLoop ops (p + j) r ns
      | Except.error e => Except.error e := by
  induction j with
  | zero =>
    intro p nodes
    simp [removeLoop]
  | succ c ih =>
    intro p nodes
    have harith : c + 1 + r = (c + r) + 1 := by omega
    rw [harith]
    rw [removeLoop]
    conv_rhs => rw [removeLoop]
    by_cases hh : alistHas nodes (ops.get? p) = true
    · simp only [hh, if_true]
      cases hch : ((getClonedNode (alistDelete (getClonedNode nodes (ops.get? p)).1
          (ops.get? p)) (getClonedNode nodes (ops.get? p)).2.parentID).2).children with
      | none => simp [hch]
      | some cs =>
        simp only [hch, ih]
        have harith2 : p + 1 + c = p + (c + 1) := by omega
        rw [harith2]
    · rw [if_neg hh, if_neg hh]

/-- Lookup-or-default of the cache list survives the normalization step
that inserts an empty list for a missing root. -/
theorem alistLookup_norm_getD (c : CacheState) (r : Nat) :
    (alistLookup (if alistHas c r then c else alistSet c r []) r).getD [] =
      (alistLookup c r).getD [] := by
  by_cases h : alistHas c r = true
  · simp [h]
  · have hnone : alistLookup c r = none := by
      unfold alistHas at h
      cases hl : alistLookup c r
      · rfl
      · rw [hl] at h; simp at h
    simp [h, alistLookup_set_self, hnone]

/-- Normalizing the cache before a call does not change the call. -/
theorem getCommitTree_norm (K : Nat) (s : ProfilingSummary) (st : Store) (c : CacheState) :
    getCommitTree K s st (if alistHas c s.rootID then c else alistSet c s.rootID []) =
      getCommitTree K s st c := by
  by_cases h : alistHas c s.rootID = true
  · simp [h]
  · rw [getCommitTree.eq_def]
    conv_rhs => rw [getCommitTree.eq_def]
    have hset : alistHas (alistSet c s.rootID []) s.rootID = true := by
      unfold alistHas
      rw [alistLookup_set_self]
      rfl
    simp [h, hset]

/-- Cached hit: when the cache already holds an entry at the requested
index, getCommitTree returns it and leaves the cache unchanged. -/
theorem getCommitTree_memo_hit (K : Nat) (s : ProfilingSummary) (st : Store)
    (c1 : CacheState) (x : CommitTree)
    (h : ((alistLookup c1 s.rootID).getD []).get? K = some x) :
    getCommitTree K s st c1 = (c1, Except.ok x) := by
  obtain ⟨l, hl⟩ : ∃ l, alistLookup c1 s.rootID = some l := by
    cases hlk : alistLookup c1 s.rootID
    · rw [hlk] at h
      simp at h
    · exact ⟨_, rfl⟩
  have hhas : alistHas c1 s.rootID = true := by
    unfold alistHas
    rw [hl]
    rfl
  rw [getCommitTree.eq_def]
  rw [hl] at h
  simp only [Option.getD] at h
  rw [List.get?_eq_getElem?] at h
  simp [hhas, hl, h]

/-- Cache after the entry step of getCommitTree, which inserts an empty
list for a root id not yet present. -/
def normCache (c : CacheState) (rootID : Nat) : CacheState :=
  if alistHas c rootID then c else alistSet c rootID []

theorem getCommitTree_zero_unfold (s : ProfilingSummary) (st : Store) (c : CacheState) :
    getCommitTree 0 s st c =
      match ((alistLookup (normCache c s.rootID) s.rootID).getD []).get? 0 with
      | some cached => (normCache c s.rootID, Except.ok cached)
      | none =>
        match recInitList (initialFuel st) (storeSnapshot st)
            s.initialTreeBaseDurations 0 [s.rootID] [] with
        | none => (normCache c s.rootID, Except.error JsError.stackOverflow)
        | some nodes =>
          applyAndCache 0 s.rootID st { nodes := nodes, rootID := s.rootID }
            (normCache c s.rootID) := by
  rw [getCommitTree.eq_def]
  rfl

theorem getCommitTree_succ_unfold (k : Nat) (s : ProfilingSummary) (st : Store) (c : CacheState) :
    getCommitTree (k + 1) s st c =
      match ((alistLookup (normCache c s.rootID) s.rootID).getD []).get? (k + 1) with
      | some cached => (normCache c s.rootID, Except.ok cached)
      | none =>
        match getCommitTree k s st (normCache c s.rootID) with
        | (cache1, Except.error e) => (cache1, Except.error e)
        | (cache1, Except.ok prev) => applyAndCache (k + 1) s.rootID st prev cache1 := by
  rw [getCommitTree.eq_def]
  rfl

theorem applyAndCache_unfold (i rid : Nat) (st : Store) (prev : CommitTree) (cache : CacheState) :
    applyAndCache i rid st prev cache =
      match alistLookup (storeOperations st) rid with
      | none => (cache, Except.error (JsError.unreconstructableCommit rid i))
      | some commitOperations =>
        match commitOperations.get? i with
        | none => (cache, Except.error (JsError.unreconstructableCommit rid i))
        | some operations =>
          match updateTree prev operations with
          | Except.error e => (cache, Except.error e)
          | Except.ok t =>
            (alistSet cache rid (((alistLookup cache rid).getD []) ++ [t]), Except.ok t) := rfl

theorem normCache_getD (c : CacheState) (r : Nat) :
    (alistLookup (normCache c r) r).getD [] = (alistLookup c r).getD [] := by
  unfold normCache
  exact alistLookup_norm_getD c r

/-- Invariant of a getCommitTree call: the cached list of the requested
root only ever grows by appends (existing indices keep their snapshots),
its final length is bounded by max of the old length and index + 1, and
on success the returned snapshot sits in the cache at the requested
index. -/
theorem getCommitTree_inv (K : Nat) (s : ProfilingSummary) (st : Store) :
    ∀ c c1 r, getCommitTree K s st c = (c1, r) →
      (∀ j x, ((alistLookup c s.rootID).getD []).get? j = some x →
          ((alistLookup c1 s.rootID).getD []).get? j = some x) ∧
      ((alistLookup c1 s.rootID).getD []).length ≤
        max ((alistLookup c s.rootID).getD []).length (K + 1) ∧
      (∀ t, r = Except.ok t → ((alistLookup c1 s.rootID).getD []).get? K = some t) := by
  induction K with
  | zero =>
    intro c c1 r h
    rw [getCommitTree_zero_unfold] at h
    split at h
    · rename_i cached hmem
      injection h with h1 h2
      subst h1
      subst h2
      rw [normCache_getD] at hmem ⊢
      refine ⟨fun j x hx => hx, Nat.le_max_left _ _, ?_⟩
      intro t ht
      injection ht with ht
      subst ht
      exact hmem
    · rename_i hmiss
      rw [normCache_getD] at hmiss
      have hnil : (alistLookup c s.rootID).getD [] = [] := by
        have := List.get?_eq_none.mp hmiss
        exact List.eq_nil_of_length_eq_zero (by omega)
      split at h
      · injection h with h1 h2
        subst h1
        subst h2
        rw [normCache_getD, hnil]
        refine ⟨fun j x hx => by simp at hx, by simp, ?_⟩
        intro t ht
        cases ht
      · rename_i nodes hinit
        rw [applyAndCache_unfold] at h
        split at h
        · injection h with h1 h2
          subst h1
          subst h2
          rw [normCache_getD, hnil]
          refine ⟨fun j x hx => by simp at hx, by simp, ?_⟩
          intro t ht
          cases ht
        · split at h
          · injection h with h1 h2
            subst h1
            subst h2
            rw [normCache_getD, hnil]
            refine ⟨fun j x hx => by simp at hx, by simp, ?_⟩
            intro t ht
            cases ht
          · split at h
            · injection h with h1 h2
              subst h1
              subst h2
              rw [normCache_getD, hnil]
              refine ⟨fun j x hx => by simp at hx, by simp, ?_⟩
              intro t ht
              cases ht
            · rename_i t0 hupd
              injection h with h1 h2
              subst h1
              subst h2
              rw [alistLookup_set_self, normCache_getD, hnil]
              simp only [Option.getD_some, hnil, List.nil_append]
              refine ⟨fun j x hx => by simp at hx, by simp, ?_⟩
              intro t ht
              injection ht with ht
              subst ht
              rfl
  | succ k ih =>
    intro c c1 r h
    rw [getCommitTree_succ_unfold] at h
    split at h
    · rename_i cached hmem
      injection h with h1 h2
      subst h1
      subst h2
      rw [normCache_getD] at hmem ⊢
      refine ⟨fun j x hx => hx, Nat.le_max_left _ _, ?_⟩
      intro t ht
      injection ht with ht
      subst ht
      exact hmem
    · rename_i hmiss
      rw [normCache_getD] at hmiss
      have hlen : ((alistLookup c s.rootID).getD []).length ≤ k + 1 :=
        List.get?_eq_none.mp hmiss
      split at h
      · rename_i cache1 e hrec
        obtain ⟨pre, len, -⟩ := ih (normCache c s.rootID) cache1 (Except.error e) hrec
        rw [normCache_getD] at pre len
        injection h with h1 h2
        subst h1
        subst h2
        refine ⟨pre, by omega, ?_⟩
        intro t ht
        cases ht
      · rename_i cache1 prev hrec
        obtain ⟨pre, len, okk⟩ := ih (normCache c s.rootID) cache1 (Except.ok prev) hrec
        rw [normCache_getD] at pre len
        have hget : ((alistLookup cache1 s.rootID).getD []).get? k = some prev :=
          okk prev rfl
        have hklt : k < ((alistLookup cache1 s.rootID).getD []).length :=
          List.get?_eq_some.mp hget |>.1
        have hlen1 : ((alistLookup cache1 s.rootID).getD []).length = k + 1 := by omega
        rw [applyAndCache_unfold] at h
        split at h
        · injection h with h1 h2
          subst h1
          subst h2
          refine ⟨pre, by omega, ?_⟩
          intro t ht
          cases ht
        · split at h
          · injection h with h1 h2
            subst h1
            subst h2
            refine ⟨pre, by omega, ?_⟩
            intro t ht
            cases ht
          · split at h
            · injection h with h1 h2
              subst h1
              subst h2
              refine ⟨pre, by omega, ?_⟩
              intro t ht
              cases ht
            · rename_i t0 hupd
              injection h with h1 h2
              subst h1
              subst h2
              rw [alistLookup_set_self]
              simp only [Option.getD_some]
              constructor
              · intro j x hx
                have hj := pre j x hx
                have hjlt : j < ((alistLookup cache1 s.rootID).getD []).length :=
                  List.get?_eq_some.mp hj |>.1
                rw [List.get?_append hjlt]
                exact hj
              constructor
              · simp [hlen1]
              · intro t ht
                injection ht with ht
                subst ht
                rw [List.get?_append_right (by omega)]
                rw [hlen1]
                simp

/-- Frame property of the heap-level updateTree: the final heap extends
the input heap. -/
theorem updateTreeH_heapExt (heap : JsHeap) (prev : CommitTreeH) (operations : List Nat) :
    HeapExt heap (updateTreeH heap prev operations).1 := by
  rw [updateTreeH]
  split
  · exact HeapExt.refl heap
  · split
    · exact HeapExt.refl heap
    · rename_i sz table pos heq
      have hfr := opLoopH_heapExt operations table pos heap prev.nodes
      split
      · rename_i heap1 e hloop
        rw [hloop] at hfr
        exact hfr
      · rename_i heap1 nodes2 hloop
        rw [hloop] at hfr
        exact hfr

/-- Root identity of the heap-level updateTree result: every successful
result keeps the rootID of the previous snapshot. -/
theorem updateTreeH_rootID (heap : JsHeap) (prev : CommitTreeH) (operations : List Nat)
    (t : CommitTreeH) (h : (updateTreeH heap prev operations).2 = Except.ok t) :
    t.rootID = prev.rootID := by
  rw [updateTreeH] at h
  split at h
  · injection h with h1
    subst h1
    rfl
  · split at h
    · injection h with h1
      subst h1
      rfl
    · split at h
      · cases h
      · injection h with h1
        subst h1
        rfl

/-- Shared helper: once the string table is decoded, updateTree is the
operation loop run from the final table position, with errors propagated
and a success wrapped with the unchanged rootID. -/
theorem updateTree_eq_opLoop (prev : CommitTree) (operations : List Nat) (sz : Nat)
    (table : List (Option String)) (pos : Nat)
    (hsz : operations.get? 2 = some sz)
    (hdec : decodeTableLoop operations 3 (3 + sz) [none] = some (table, pos)) :
    updateTree prev operations =
      match opLoop operations table pos prev.nodes with
      | Except.error e => Except.error e
      | Except.ok nodes2 => Except.ok { nodes := nodes2, rootID := prev.rootID } := by
  rw [updateTree]
  simp only [hsz, hdec]

/-- Example root node used by concrete witnesses. -/
def exRootNode : JsNode :=
  { id := some 1, parentID := some 0, displayName := some "Root", key := none,
    children := some [], treeBaseDuration := some 10 }

/-- Example one-node snapshot (value model). -/
def exTree : CommitTree := { nodes := [(some 1, exRootNode)], rootID := 1 }

/-- Example one-node snapshot (heap model), with the node at address 0. -/
def exTreeH : CommitTreeH := { nodes := [(some 1, 0)], rootID := 1 }

/-- Example profiling summary for root 1. -/
def exSummary : ProfilingSummary := { rootID := 1, initialTreeBaseDurations := [(1, 0)] }

/-- Example hierarchy-source entry for root 1. -/
def exSnapNode : SnapNode := { children := [], displayName := some "Root", key := none }

/-- Example store with two well-formed operation logs for root 1. -/
def exStore : Store :=
  { importedProfilingData := none,
    profilingOperations := [(1, [[0, 0, 0], [0, 0, 0, 4, 1, 2500]])],
    profilingSnapshot := [(1, exSnapNode)] }

/-- Example store whose log for commit 0 removes a nonexistent node. -/
def exStoreBadLog0 : Store :=
  { importedProfilingData := none,
    profilingOperations := [(1, [[0, 0, 0, 2, 1, 99], [0, 0, 0]])],
    profilingSnapshot := [(1, exSnapNode)] }

/-- Example store whose log for commit 1 removes a nonexistent node. -/
def exStoreBadLog1 : Store :=
  { importedProfilingData := none,
    profilingOperations := [(1, [[0, 0, 0], [0, 0, 0, 2, 1, 99]])],
    profilingSnapshot := [(1, exSnapNode)] }

/-- Example store with no operation logs recorded at all. -/
def exStoreNoOps : Store :=
  { importedProfilingData := none,
    profilingOperations := [],
    profilingSnapshot := [(1, exSnapNode)] }

/-- Snapshot of commit 0 of exStore. -/
def exT0 : CommitTree :=
  { nodes := [(some 1,
      { id := some 1, parentID := some 0, displayName := some "Root", key := none,
        children := some [], treeBaseDuration := some 0 })],
    rootID := 1 }

/-- Snapshot of commit 1 of exStore: treeBaseDuration updated to 2.5ms. -/
def exT1 : CommitTree :=
  { nodes := [(some 1,
      { id := some 1, parentID := some 0, displayName := some "Root", key := none,
        children := some [], treeBaseDuration := some (5 / 2) })],
    rootID := 1 }

/-- C1: for every previous snapshot and every operation buffer, updateTree
never mutates the previous snapshot: every Node object (heap address)
that existed before the call holds the same value after it, whether the
call succeeds or fails, and a successful result carries the same rootID
as the previous snapshot. -/
theorem updateTree_never_mutates_previous (heap : JsHeap) (previous : CommitTreeH)
    (operations : List Nat) :
    (∀ a, a < heap.length →
        (updateTreeH heap previous operations).1.get? a = heap.get? a) ∧
    (∀ t, (updateTreeH heap previous operations).2 = Except.ok t →
        t.rootID = previous.rootID) :=
  ⟨(updateTreeH_heapExt heap previous operations).2,
   fun t h => updateTreeH_rootID heap previous operations t h⟩

theorem updateTree_never_mutates_previous_witness :
    (updateTreeH [exRootNode] exTreeH [0, 0, 0, 4, 1, 2500]).1.get? 0 =
      [exRootNode].get? 0 ∧
    ({ nodes := [(some 1, 1)], rootID := 1 } : CommitTreeH).rootID = exTreeH.rootID :=
  ⟨(updateTree_never_mutates_previous [exRootNode] exTreeH [0, 0, 0, 4, 1, 2500]).1 0
      (by decide),
   (updateTree_never_mutates_previous [exRootNode] exTreeH [0, 0, 0, 4, 1, 2500]).2
      { nodes := [(some 1, 1)], rootID := 1 }
      (by simp [updateTreeH, opLoopH, decodeTableLoop, getClonedNodeH, heapRead,
        alistHas, alistLookup, alistSet, JsNode.empty, exTreeH, exRootNode,
        TREE_OPERATION_ADD, TREE_OPERATION_REMOVE, TREE_OPERATION_REORDER_CHILDREN,
        TREE_OPERATION_UPDATE_TREE_BASE_DURATION])⟩

/-- C3: every failure of the operation decoder aborts the whole
updateTree call.  Any opcode word other than Add, Remove,
ReorderChildren or UpdateTreeBaseDuration makes the operation loop fail
with UnsupportedOperation; an operation-loop error makes the whole
updateTree call return that error (no partial snapshot is returned); and
on a failing heap-level run every Node object of the previous snapshot
is unchanged (the in-progress mapping is simply discarded). -/
theorem updateTree_fails_atomically :
    (∀ (ops : List Nat) (table : List (Option String)) (p : Nat) (nodes : JsMap)
        (h : p < ops.length),
        ops[p] ≠ TREE_OPERATION_ADD → ops[p] ≠ TREE_OPERATION_REMOVE →
        ops[p] ≠ TREE_OPERATION_REORDER_CHILDREN →
        ops[p] ≠ TREE_OPERATION_UPDATE_TREE_BASE_DURATION →
        opLoop ops table p nodes =
          Except.error (JsError.unsupportedOperation ops[p])) ∧
    (∀ (prev : CommitTree) (operations : List Nat) (sz : Nat)
        (table : List (Option String)) (pos : Nat) (e : JsError),
        operations.get? 2 = some sz →
        decodeTableLoop operations 3 (3 + sz) [none] = some (table, pos) →
        opLoop operations table pos prev.nodes = Except.error e →
        updateTree prev operations = Except.error e) ∧
    (∀ (heap : JsHeap) (prevH : CommitTreeH) (operations : List Nat) (e : JsError),
        (updateTreeH heap prevH operations).2 = Except.error e →
        ∀ a, a < heap.length →
          (updateTreeH heap prevH operations).1.get? a = heap.get? a) := by
  refine ⟨?_, ?_, ?_⟩
  · intro ops table p nodes h h1 h2 h3 h4
    rw [opLoop, dif_pos h]
    simp only [h1, h2, h3, h4, if_false, reduceIte]
  · intro prev operations sz table pos e hsz hdec hloop
    rw [updateTree_eq_opLoop prev operations sz table pos hsz hdec, hloop]
  · intro heap prevH operations e _ a ha
    exact (updateTreeH_heapExt heap prevH operations).2 a ha

theorem updateTree_fails_atomically_witness :
    opLoop [0, 0, 0, 9] [none] 3 [] =
      Except.error (JsError.unsupportedOperation 9) ∧
    updateTree exTree [0, 0, 0, 9] =
      Except.error (JsError.unsupportedOperation 9) ∧
    (updateTreeH [exRootNode] exTreeH [0, 0, 0, 9]).1.get? 0 = [exRootNode].get? 0 := by
  refine ⟨?_, ?_, ?_⟩
  · exact updateTree_fails_atomically.1 [0, 0, 0, 9] [none] 3 [] (by decide)
      (by decide) (by decide) (by decide) (by decide)
  · exact updateTree_fails_atomically.2.1 exTree [0, 0, 0, 9] 0 [none] 3
      (JsError.unsupportedOperation 9) (by decide)
      (by simp [decodeTableLoop])
      (updateTree_fails_atomically.1 [0, 0, 0, 9] [none] 3 exTree.nodes (by decide)
        (by decide) (by decide) (by decide) (by decide))
  · exact updateTree_fails_atomically.2.2 [exRootNode] exTreeH [0, 0, 0, 9]
      (JsError.unsupportedOperation 9)
      (by simp [updateTreeH, opLoopH, decodeTableLoop, exTreeH,
        TREE_OPERATION_ADD, TREE_OPERATION_REMOVE, TREE_OPERATION_REORDER_CHILDREN,
        TREE_OPERATION_UPDATE_TREE_BASE_DURATION])
      0 (by decide)

/-- C6: an Add operation whose id is already present in the mapping makes
the operation loop fail with DuplicateNode (stated both for an Add at an
arbitrary position of the loop and for a whole updateTree call whose
first decoded operation is the Add); the duplicate is never silently
ignored and no snapshot is produced for the buffer. -/
theorem add_duplicate_node_fails :
    (∀ (ops : List Nat) (table : List (Option String)) (p : Nat) (nodes : JsMap)
        (h : p < ops.length),
        ops[p] = TREE_OPERATION_ADD →
        alistHas nodes (ops.get? (p + 1)) = true →
        opLoop ops table p nodes =
          Except.error (JsError.duplicateNode (ops.get? (p + 1)))) ∧
    (∀ (prev : CommitTree) (hA hB id2 : Nat) (rest : List Nat),
        alistHas prev.nodes (some id2) = true →
        updateTree prev (hA :: hB :: 0 :: TREE_OPERATION_ADD :: id2 :: rest) =
          Except.error (JsError.duplicateNode (some id2))) := by
  have hloop : ∀ (ops : List Nat) (table : List (Option String)) (p : Nat)
      (nodes : JsMap) (h : p < ops.length),
      ops[p] = TREE_OPERATION_ADD →
      alistHas nodes (ops.get? (p + 1)) = true →
      opLoop ops table p nodes =
        Except.error (JsError.duplicateNode (ops.get? (p + 1))) := by
    intro ops table p nodes h hop hdup
    rw [opLoop, dif_pos h]
    simp only [hop, hdup, reduceIte, if_true]
  refine ⟨hloop, ?_⟩
  intro prev hA hB id2 rest hdup
  have hsz : (hA :: hB :: 0 :: TREE_OPERATION_ADD :: id2 :: rest).get? 2 = some 0 := rfl
  have hdec : decodeTableLoop (hA :: hB :: 0 :: TREE_OPERATION_ADD :: id2 :: rest) 3 (3 + 0)
      [none] = some ([none], 3) := by
    simp [decodeTableLoop]
  rw [updateTree_eq_opLoop prev _ 0 [none] 3 hsz hdec]
  have h3 : 3 < (hA :: hB :: 0 :: TREE_OPERATION_ADD :: id2 :: rest).length := by
    simp
  have hop : (hA :: hB :: 0 :: TREE_OPERATION_ADD :: id2 :: rest)[3] =
      TREE_OPERATION_ADD := rfl
  have hid : (hA :: hB :: 0 :: TREE_OPERATION_ADD :: id2 :: rest).get? 4 = some id2 := rfl
  rw [hloop _ [none] 3 prev.nodes h3 hop (by rw [hid]; exact hdup)]
  rw [hid]

theorem add_duplicate_node_fails_witness :
    opLoop [0, 0, 0, 1, 1, 11, 0, 0] [none] 3 exTree.nodes =
      Except.error (JsError.duplicateNode (some 1)) ∧
    updateTree exTree [0, 0, 0, TREE_OPERATION_ADD, 1, 11, 0, 0] =
      Except.error (JsError.duplicateNode (some 1)) := by
  constructor
  · have := add_duplicate_node_fails.1 [0, 0, 0, 1, 1, 11, 0, 0] [none] 3 exTree.nodes
      (by decide) (by decide) (by decide)
    simpa using this
  · exact add_duplicate_node_fails.2 exTree 0 0 1 [11, 0, 0] (by decide)

/-- C7: applying UpdateTreeBaseDuration(id, durationMicros) to a node id
present in the mapping continues the loop with that node's
treeBaseDuration set to durationMicros / 1000, and with no structural
field of any node changed: the updated node keeps its children,
parentID, displayName and key, and the mapping of every other id is
untouched. -/
theorem update_tree_base_duration_converts
    (ops : List Nat) (table : List (Option String)) (p : Nat) (nodes : JsMap)
    (idn dur : Nat) (oldNode : JsNode) (h : p < ops.length)
    (hop : ops[p] = TREE_OPERATION_UPDATE_TREE_BASE_DURATION)
    (hid : ops.get? (p + 1) = some idn)
    (hdur : ops.get? (p + 2) = some dur)
    (hold : alistLookup nodes (some idn) = some oldNode) :
    opLoop ops table p nodes =
      opLoop ops table (p + 3)
        (alistSet nodes (some idn)
          { oldNode with treeBaseDuration := some ((dur : Rat) / 1000) }) ∧
    alistLookup (alistSet nodes (some idn)
        { oldNode with treeBaseDuration := some ((dur : Rat) / 1000) }) (some idn) =
      some { oldNode with treeBaseDuration := some ((dur : Rat) / 1000) } ∧
    (∀ k2, k2 ≠ some idn →
        alistLookup (alistSet nodes (some idn)
            { oldNode with treeBaseDuration := some ((dur : Rat) / 1000) }) k2 =
          alistLookup nodes k2) ∧
    ({ oldNode with treeBaseDuration := some ((dur : Rat) / 1000) }).children =
      oldNode.children ∧
    ({ oldNode with treeBaseDuration := some ((dur : Rat) / 1000) }).parentID =
      oldNode.parentID ∧
    ({ oldNode with treeBaseDuration := some ((dur : Rat) / 1000) }).displayName =
      oldNode.displayName ∧
    ({ oldNode with treeBaseDuration := some ((dur : Rat) / 1000) }).key =
      oldNode.key := by
  have h1 : ops[p] ≠ TREE_OPERATION_ADD := by rw [hop]; decide
  have h2 : ops[p] ≠ TREE_OPERATION_REMOVE := by rw [hop]; decide
  have h3 : ops[p] ≠ TREE_OPERATION_REORDER_CHILDREN := by rw [hop]; decide
  refine ⟨?_, alistLookup_set_self _ _ _,
    fun k2 hk2 => alistLookup_set_ne _ _ _ _ hk2, rfl, rfl, rfl, rfl⟩
  have h4 : (ops[p] = TREE_OPERATION_UPDATE_TREE_BASE_DURATION) = True := by
    simp [hop]
  rw [opLoop, dif_pos h]
  simp only [h1, h2, h3, h4, hid, hdur, reduceIte, if_true, if_false,
    getClonedNode, hold, Option.getD_some, Option.map_some, alistSet_set_same]
  rfl

theorem update_tree_base_duration_converts_witness :
    opLoop [0, 0, 0, 4, 1, 2500] [none] 3 exTree.nodes =
      opLoop [0, 0, 0, 4, 1, 2500] [none] 6
        (alistSet exTree.nodes (some 1)
          { exRootNode with treeBaseDuration := some ((2500 : Rat) / 1000) }) ∧
    ((2500 : Rat) / 1000) = 5 / 2 := by
  constructor
  · exact (update_tree_base_duration_converts [0, 0, 0, 4, 1, 2500] [none] 3 exTree.nodes
      1 2500 exRootNode (by decide) (by decide) (by decide) (by decide) (by decide)).1
  · norm_num

/-- C5: a Remove operation whose j-th id is absent from the mapping as of
the prior removals of the same operation fails with UnknownNode; and a
failing getCommitTree call never destroys cached snapshots: every
snapshot cached for the timeline before the call is still cached after
it, and a subsequent getCommitTree call for its index still returns it
unchanged. -/
theorem remove_unknown_node_fails_cache_intact :
    (∀ (ops : List Nat) (p j count : Nat) (nodes nodesJ : JsMap),
        j < count →
        removeLoop ops p j nodes = Except.ok nodesJ →
        alistHas nodesJ (ops.get? (p + j)) = false →
        removeLoop ops p count nodes =
          Except.error (JsError.unknownNode (ops.get? (p + j)))) ∧
    (∀ (ops : List Nat) (table : List (Option String)) (p : Nat) (nodes : JsMap)
        (count : Nat) (e : JsError) (h : p < ops.length),
        ops[p] = TREE_OPERATION_REMOVE →
        ops.get? (p + 1) = some count →
        removeLoop ops (p + 2) count nodes = Except.error e →
        opLoop ops table p nodes = Except.error e) ∧
    (∀ (K : Nat) (s : ProfilingSummary) (st : Store) (c c1 : CacheState) (e : JsError),
        getCommitTree K s st c = (c1, Except.error e) →
        ∀ j x, ((alistLookup c s.rootID).getD []).get? j = some x →
          ((alistLookup c1 s.rootID).getD []).get? j = some x ∧
          getCommitTree j s st c1 = (c1, Except.ok x)) := by
  refine ⟨?_, ?_, ?_⟩
  · intro ops p j count nodes nodesJ hj hpre hmiss
    obtain ⟨m, rfl⟩ : ∃ m, count = j + (m + 1) := ⟨count - j - 1, by omega⟩
    rw [removeLoop_split ops j (m + 1) p nodes, hpre]
    show removeLoop ops (p + j) (m + 1) nodesJ =
      Except.error (JsError.unknownNode (ops.get? (p + j)))
    rw [removeLoop]
    rw [if_neg (by rw [hmiss]; decide)]
  · intro ops table p nodes count e h hop hcount hrem
    have h1 : ops[p] ≠ TREE_OPERATION_ADD := by rw [hop]; decide
    have h2 : (ops[p] = TREE_OPERATION_REMOVE) = True := by simp [hop]
    rw [opLoop, dif_pos h]
    simp only [h1, h2, hcount, hrem, reduceIte, if_true, if_false]
  · intro K s st c c1 e h j x hx
    have hpre := (getCommitTree_inv K s st c c1 (Except.error e) h).1 j x hx
    exact ⟨hpre, getCommitTree_memo_hit j s st c1 x hpre⟩

theorem remove_unknown_node_fails_cache_intact_witness :
    removeLoop [99] 0 1 [] = Except.error (JsError.unknownNode (some 99)) ∧
    opLoop [0, 0, 0, 2, 1, 99] [none] 3 exT0.nodes =
      Except.error (JsError.unknownNode (some 99)) ∧
    ((alistLookup ([(1, [exT0])] : CacheState) 1).getD []).get? 0 = some exT0 ∧
    getCommitTree 0 exSummary exStoreBadLog1 [(1, [exT0])] =
      ([(1, [exT0])], Except.ok exT0) := by
  refine ⟨?_, ?_, ?_⟩
  · exact remove_unknown_node_fails_cache_intact.1 [99] 0 0 1 [] [] (by decide)
      rfl (by decide)
  · exact remove_unknown_node_fails_cache_intact.2.1 [0, 0, 0, 2, 1, 99] [none] 3
      exT0.nodes 1 (JsError.unknownNode (some 99)) (by decide) (by decide) (by decide)
      (by
        rw [removeLoop]
        rw [if_neg (by decide)]
        rfl)
  · exact remove_unknown_node_fails_cache_intact.2.2 1 exSummary exStoreBadLog1
      [(1, [exT0])] [(1, [exT0])] (JsError.unknownNode (some 99))
      (by simp [getCommitTree, applyAndCache, recInitList, initialFuel, storeSnapshot,
        storeOperations, updateTree, decodeTableLoop, opLoop, removeLoop, getClonedNode,
        alistHas, alistLookup, alistSet, alistDelete, JsNode.empty, exSummary,
        exStoreBadLog1, exSnapNode, exT0, TREE_OPERATION_ADD, TREE_OPERATION_REMOVE,
        TREE_OPERATION_REORDER_CHILDREN, TREE_OPERATION_UPDATE_TREE_BASE_DURATION])
      0 exT0 (by decide)

/-- C4: a successful getCommitTree call leaves its result in the cache at
the requested index, and a second call for the same index with no
intervening invalidation returns the memoized entry itself: the very
same snapshot value (hence identical node content, id for id and field
for field), with the cache state unchanged and no recomputation. -/
theorem getCommitTree_memoized (K : Nat) (s : ProfilingSummary) (st : Store)
    (c c1 : CacheState) (t : CommitTree)
    (h : getCommitTree K s st c = (c1, Except.ok t)) :
    ((alistLookup c1 s.rootID).getD []).get? K = some t ∧
    getCommitTree K s st c1 = (c1, Except.ok t) := by
  have hmem := (getCommitTree_inv K s st c c1 (Except.ok t) h).2.2 t rfl
  exact ⟨hmem, getCommitTree_memo_hit K s st c1 t hmem⟩

theorem getCommitTree_memoized_witness :
    ((alistLookup ([(1, [exT0, exT1])] : CacheState) 1).getD []).get? 1 = some exT1 ∧
    getCommitTree 1 exSummary exStore [(1, [exT0, exT1])] =
      ([(1, [exT0, exT1])], Except.ok exT1) :=
  getCommitTree_memoized 1 exSummary exStore [] [(1, [exT0, exT1])] exT1
    (by
      simp [getCommitTree, applyAndCache, recInitList, initialFuel, storeSnapshot,
        storeOperations, updateTree, decodeTableLoop, opLoop, getClonedNode,
        alistHas, alistLookup, alistSet, JsNode.empty, exSummary, exStore, exSnapNode,
        exT0, exT1, TREE_OPERATION_ADD, TREE_OPERATION_REMOVE,
        TREE_OPERATION_REORDER_CHILDREN, TREE_OPERATION_UPDATE_TREE_BASE_DURATION]
      norm_num)

theorem getCommitTree_normCache (K : Nat) (s : ProfilingSummary) (st : Store)
    (c : CacheState) :
    getCommitTree K s st (normCache c s.rootID) = getCommitTree K s st c := by
  unfold normCache
  exact getCommitTree_norm K s st c

/-- C2 (amended): for an index K + 1 not yet cached, getCommitTree first
obtains snapshot K: if that computation fails, the K + 1 call fails with
the very same error (hence with UnreconstructableCommit exactly when
snapshot K failed with UnreconstructableCommit, but with the original
error otherwise); and when both calls succeed, the K + 1 snapshot is
obtained by applying the operation log recorded for index K + 1 to
exactly the snapshot returned for index K. -/
theorem getCommitTree_sequencing (K : Nat) (s : ProfilingSummary) (st : Store)
    (c : CacheState)
    (hfresh : ((alistLookup c s.rootID).getD []).get? (K + 1) = none) :
    (∀ c1 e, getCommitTree K s st c = (c1, Except.error e) →
        getCommitTree (K + 1) s st c = (c1, Except.error e)) ∧
    (∀ c1 prev c2 t, getCommitTree K s st c = (c1, Except.ok prev) →
        getCommitTree (K + 1) s st c = (c2, Except.ok t) →
        ∃ commitOperations operations,
          alistLookup (storeOperations st) s.rootID = some commitOperations ∧
          commitOperations.get? (K + 1) = some operations ∧
          updateTree prev operations = Except.ok t) := by
  have hunf : getCommitTree (K + 1) s st c =
      match getCommitTree K s st c with
      | (cache1, Except.error e) => (cache1, Except.error e)
      | (cache1, Except.ok prev) => applyAndCache (K + 1) s.rootID st prev cache1 := by
    rw [getCommitTree_succ_unfold]
    rw [normCache_getD]
    rw [hfresh]
    rw [getCommitTree_normCache]
  constructor
  · intro c1 e h1
    rw [hunf, h1]
  · intro c1 prev c2 t h1 h2
    simp only [hunf, h1] at h2
    rw [applyAndCache_unfold] at h2
    split at h2
    · cases h2
    · rename_i commitOperations hco
      split at h2
      · cases h2
      · rename_i operations hop
        split at h2
        · cases h2
        · rename_i t0 hupd
          injection h2 with h21 h22
          injection h22 with h22
          subst h22
          exact ⟨commitOperations, operations, hco, hop, hupd⟩

theorem getCommitTree_sequencing_witness :
    ∃ commitOperations operations,
      alistLookup (storeOperations exStore) exSummary.rootID = some commitOperations ∧
      commitOperations.get? 1 = some operations ∧
      updateTree exT0 operations = Except.ok exT1 :=
  (getCommitTree_sequencing 0 exSummary exStore [] (by decide)).2
    [(1, [exT0])] exT0 [(1, [exT0, exT1])] exT1
    (by
      simp [getCommitTree, applyAndCache, recInitList, initialFuel, storeSnapshot,
        storeOperations, updateTree, decodeTableLoop, opLoop, getClonedNode,
        alistHas, alistLookup, alistSet, JsNode.empty, exSummary, exStore, exSnapNode,
        exT0, TREE_OPERATION_ADD, TREE_OPERATION_REMOVE,
        TREE_OPERATION_REORDER_CHILDREN, TREE_OPERATION_UPDATE_TREE_BASE_DURATION])
    (by
      simp [getCommitTree, applyAndCache, recInitList, initialFuel, storeSnapshot,
        storeOperations, updateTree, decodeTableLoop, opLoop, getClonedNode,
        alistHas, alistLookup, alistSet, JsNode.empty, exSummary, exStore, exSnapNode,
        exT0, exT1, TREE_OPERATION_ADD, TREE_OPERATION_REMOVE,
        TREE_OPERATION_REORDER_CHILDREN, TREE_OPERATION_UPDATE_TREE_BASE_DURATION]
      norm_num)

/-- C2 counterexample: with a log for commit 0 that removes a nonexistent
node, obtaining snapshot 0 fails with UnknownNode, and getCommitTree 1
then fails with that same UnknownNode error — not with
UnreconstructableCommit as the claim demands. -/
theorem getCommitTree_sequencing_counterexample :
    getCommitTree 0 exSummary exStoreBadLog0 [] =
      ([(1, [])], Except.error (JsError.unknownNode (some 99))) ∧
    getCommitTree 1 exSummary exStoreBadLog0 [] =
      ([(1, [])], Except.error (JsError.unknownNode (some 99))) ∧
    JsError.unknownNode (some 99) ≠ JsError.unreconstructableCommit 1 1 := by
  refine ⟨?_, ?_, by decide⟩ <;>
    simp [getCommitTree, applyAndCache, recInitList, initialFuel, storeSnapshot,
      storeOperations, updateTree, decodeTableLoop, opLoop, removeLoop, getClonedNode,
      alistHas, alistLookup, alistSet, alistDelete, JsNode.empty, exSummary,
      exStoreBadLog0, exSnapNode, TREE_OPERATION_ADD, TREE_OPERATION_REMOVE,
      TREE_OPERATION_REORDER_CHILDREN, TREE_OPERATION_UPDATE_TREE_BASE_DURATION]

/-- C8 (amended): string-table decoding stops at the first entry boundary
at or beyond the recorded boundary — exactly at the boundary whenever the
recorded region decomposes into length-prefixed entries.  A size field
that does not align with entry boundaries is not detected: decoding
simply overshoots and the operation loop starts wherever the scan
stopped, with no MalformedLog-style failure (the counterexample shows a
misaligned buffer on which updateTree succeeds). -/
theorem stringTable_boundary :
    (∀ (ops : List Nat) (i tEnd : Nat) (table table2 : List (Option String)) (pos : Nat),
        decodeTableLoop ops i tEnd table = some (table2, pos) → tEnd ≤ pos) ∧
    (∀ (ops : List Nat) (i tEnd : Nat) (table : List (Option String)),
        TableAligned ops i tEnd →
        ∃ table2, decodeTableLoop ops i tEnd table = some (table2, tEnd)) := by
  constructor
  · intro ops i tEnd table
    induction i, tEnd, table using decodeTableLoop.induct ops with
    | case1 i tEnd table hlt hnone =>
      intro table2 pos h
      rw [decodeTableLoop, if_pos hlt, hnone] at h
      cases h
    | case2 i tEnd table hlt r hr ns ih =>
      intro table2 pos h
      rw [decodeTableLoop, if_pos hlt, hr] at h
      exact ih table2 pos h
    | case3 i tEnd table hge =>
      intro table2 pos h
      rw [decodeTableLoop, if_neg hge] at h
      injection h with h1
      injection h1 with h1 h2
      subst h2
      omega
  · intro ops i tEnd table h
    induction h generalizing table with
    | done tEnd =>
      refine ⟨table, ?_⟩
      rw [decodeTableLoop, if_neg (by omega)]
    | step i tEnd L hlt hL _ ih =>
      obtain ⟨table2, htb⟩ := ih (table ++
        [some (utfDecodeString ((ops.drop (i + 1)).take L))])
      refine ⟨table2, ?_⟩
      rw [decodeTableLoop, if_pos hlt, hL]
      exact htb

theorem stringTable_boundary_witness :
    (5 : Nat) ≤ 5 ∧
    ∃ table2, decodeTableLoop [0, 0, 2, 1, 7] 3 5 [none] = some (table2, 5) := by
  constructor
  · exact stringTable_boundary.1 [0, 0, 2, 1, 7] 3 5 [none]
      [none, some (utfDecodeString [7])] 5
      (by simp [decodeTableLoop])
  · exact stringTable_boundary.2 [0, 0, 2, 1, 7] 3 5 [none]
      (TableAligned.step 3 5 1 (by omega) rfl
        (by
          have h5 : (5 : Nat) = 3 + 1 + 1 := by omega
          rw [h5]
          exact TableAligned.done 5))

/-- C8 counterexample: a buffer whose string-table size field (1) does
not align with its single entry (length word 2 overruns the recorded
boundary) is not rejected: updateTree succeeds and returns the previous
snapshot unchanged, so there is no MalformedLog failure. -/
theorem stringTable_misaligned_counterexample :
    updateTree exTree [0, 0, 1, 2] = Except.ok exTree := by
  simp [updateTree, decodeTableLoop, opLoop, utfDecodeString, exTree]

/-- C9 (amended): a request for index 0 builds the initial snapshot from
the external hierarchy source and initial-duration table and then
requires an operation log for commit 0: when one exists and applies
cleanly the resulting snapshot is returned, but when no log is recorded
for commit 0 the call does not return the bare initial tree — it fails
with UnreconstructableCommit. -/
theorem getCommitTree_zero_requires_log (s : ProfilingSummary) (st : Store)
    (c : CacheState) (nodes : JsMap)
    (hfresh : ((alistLookup c s.rootID).getD []).get? 0 = none)
    (hinit : recInitList (initialFuel st) (storeSnapshot st)
        s.initialTreeBaseDurations 0 [s.rootID] [] = some nodes) :
    ((alistLookup (storeOperations st) s.rootID).bind (fun l => l.get? 0) = none →
        (getCommitTree 0 s st c).2 =
          Except.error (JsError.unreconstructableCommit s.rootID 0)) ∧
    (∀ operationsList operations t,
        alistLookup (storeOperations st) s.rootID = some operationsList →
        operationsList.get? 0 = some operations →
        updateTree { nodes := nodes, rootID := s.rootID } operations = Except.ok t →
        (getCommitTree 0 s st c).2 = Except.ok t) := by
  have hunf : getCommitTree 0 s st c =
      applyAndCache 0 s.rootID st { nodes := nodes, rootID := s.rootID }
        (normCache c s.rootID) := by
    rw [getCommitTree_zero_unfold]
    rw [normCache_getD]
    rw [hfresh, hinit]
  constructor
  · intro habsent
    rw [hunf, applyAndCache_unfold]
    cases hco : alistLookup (storeOperations st) s.rootID with
    | none => rfl
    | some operationsList =>
      rw [hco] at habsent
      simp only [Option.some_bind] at habsent
      simp only [habsent]
  · intro operationsList operations t hco hop hupd
    rw [hunf, applyAndCache_unfold]
    simp only [hco, hop, hupd]

theorem getCommitTree_zero_requires_log_witness :
    (getCommitTree 0 exSummary exStoreNoOps []).2 =
      Except.error (JsError.unreconstructableCommit 1 0) ∧
    (getCommitTree 0 exSummary exStore []).2 = Except.ok exT0 := by
  constructor
  · have h1 := (getCommitTree_zero_requires_log exSummary exStoreNoOps []
      exT0.nodes (by decide)
      (by
        simp [recInitList, initialFuel, storeSnapshot, exStoreNoOps, exSnapNode,
          exSummary, exT0, alistLookup, alistSet])
      ).1 (by decide)
    simpa [exSummary] using h1
  · exact (getCommitTree_zero_requires_log exSummary exStore []
      exT0.nodes (by decide)
      (by
        simp [recInitList, initialFuel, storeSnapshot, exStore, exSnapNode,
          exSummary, exT0, alistLookup, alistSet])
      ).2 [[0, 0, 0], [0, 0, 0, 4, 1, 2500]] [0, 0, 0] exT0
      (by decide) (by decide)
      (by simp [updateTree, decodeTableLoop, opLoop, exT0, exSummary])

/-- C9 counterexample: with a hierarchy source and duration table present
but no operation log recorded for the timeline, getSnapshot(T, 0) does
not succeed with the initial tree: it throws UnreconstructableCommit. -/
theorem getCommitTree_zero_no_log_counterexample :
    getCommitTree 0 exSummary exStoreNoOps [] =
      ([(1, [])], Except.error (JsError.unreconstructableCommit 1 0)) := by
  simp [getCommitTree, applyAndCache, recInitList, initialFuel, storeSnapshot,
    storeOperations, alistHas, alistLookup, alistSet, exSummary, exStoreNoOps,
    exSnapNode, normCache]

/-- C10: the missing-parent guard of the Remove handler is dead code, so
the claimed silent no-op does not happen.  Removing the only (root) node
of the example snapshot, whose parentID 0 names no node, first records an
empty clone object under the missing parent id in the mapping and then
raises a TypeError by calling .filter on the undefined children of that
empty object, so the whole updateTree call fails instead of succeeding. -/
theorem remove_missing_parent_raises :
    updateTree exTree [0, 0, 0, TREE_OPERATION_REMOVE, 1, 1] =
      Except.error JsError.typeError ∧
    removeLoop [1] 0 1 [(some 1, exRootNode)] = Except.error JsError.typeError ∧
    (getClonedNode [] (some 0)).1 = [(some 0, JsNode.empty)] := by
  refine ⟨?_, rfl, by decide⟩
  simp [updateTree, decodeTableLoop, opLoop, removeLoop, getClonedNode, alistHas,
    alistLookup, alistSet, alistDelete, JsNode.empty, exTree, exRootNode,
    TREE_OPERATION_ADD, TREE_OPERATION_REMOVE, TREE_OPERATION_REORDER_CHILDREN,
    TREE_OPERATION_UPDATE_TREE_BASE_DURATION]
